import Mathlib

/-!
# Kinetic sculpture: animation parameters, pendant transforms, lighting table

A shallow embedding of `multiple_lights.cpp`.

* C++ `float` is idealised by an arbitrary linearly ordered field `α`
  (instantiated with `ℚ` for evaluation and with `ℝ` where a sine or cosine is
  needed).
* `std::sinf`, `glm::cos` and the constant `π` behind `glm::radians` are library
  code outside the program; the definitions take them as parameters and the
  theorems instantiate them with `Real.sin`, `Real.cos` and `Real.pi`.
* The globals `paused`, `waveSpeed`, `waveAmp`, `tAccum` and the function-local
  `static bool prevP` of `processInput` are the fields of one explicit state
  record that is threaded through `processInput` and through one pass of the
  render loop (`frame`).
* A `glm::mat4` built only with `glm::translate` and `glm::scale` is an affine
  map with a diagonal linear part; `Model` keeps that diagonal and the offset.
-/

namespace KineticSculpture

/-! ## Data model -/

/-- Three floats, as `glm::vec3`. -/
structure Vec3 (α : Type) where
  x : α
  y : α
  z : α
deriving DecidableEq, Repr

/-- The kinetic animation globals (`paused`, `waveSpeed`, `waveAmp`, `tAccum`)
together with the `static bool prevP` local of `processInput`. -/
structure Anim (α : Type) where
  paused : Bool
  waveSpeed : α
  waveAmp : α
  tAccum : α
  prevP : Bool
deriving DecidableEq, Repr

/-- The result of `glfwGetKey(...) == GLFW_PRESS` for the keys that touch the
animation state.  Escape and W/A/S/D only reach the window-close flag and the
camera, which are not part of `Anim`. -/
structure Keys where
  p : Bool
  up : Bool
  down : Bool
  right : Bool
  left : Bool
  r : Bool
deriving DecidableEq, Repr

/-- No key is held. -/
def Keys.none : Keys := ⟨false, false, false, false, false, false⟩

section Generic

variable {α : Type} [LinearOrderedField α]

/-- Initial values of the globals: `paused = false`, `waveSpeed = 1.6f`,
`waveAmp = 0.9f`, `tAccum = 0.0f`, and `prevP = false`. -/
def Anim.init : Anim α :=
  { paused := false, waveSpeed := 1.6, waveAmp := 0.9, tAccum := 0.0, prevP := false }

/-- Grid width `NX`. -/
def NX : Int := 14

/-- Grid depth `NZ`. -/
def NZ : Int := 14

/-- Grid spacing `SPACING = 1.3f`. -/
def SPACING : α := 1.3

/-! ## Input handling and the per-frame time advance -/

/-- The animation part of `processInput(window)`: the pause toggle on a rising
edge of P, the four tuning keys in source order, then the reset key. -/
def processInput (k : Keys) (deltaTime : α) (s : Anim α) : Anim α :=
  let nowP := k.p
  let paused := if nowP && !s.prevP then !s.paused else s.paused
  let prevP := nowP
  let waveSpeed := if k.up then s.waveSpeed + 0.8 * deltaTime else s.waveSpeed
  let waveSpeed := if k.down then max 0 (waveSpeed - 0.8 * deltaTime) else waveSpeed
  let waveAmp := if k.right then s.waveAmp + 0.8 * deltaTime else s.waveAmp
  let waveAmp := if k.left then max 0 (waveAmp - 0.8 * deltaTime) else waveAmp
  if k.r then
    { paused := paused, waveSpeed := 1.6, waveAmp := 0.9, tAccum := 0.0, prevP := prevP }
  else
    { paused := paused, waveSpeed := waveSpeed, waveAmp := waveAmp, tAccum := s.tAccum,
      prevP := prevP }

/-- The state update of one pass of the render loop:
`processInput(window); if (!paused) tAccum += deltaTime * waveSpeed;`. -/
def frame (k : Keys) (deltaTime : α) (s : Anim α) : Anim α :=
  let s1 := processInput k deltaTime s
  if !s1.paused then { s1 with tAccum := s1.tAccum + deltaTime * s1.waveSpeed } else s1

/-- Consecutive `processInput` calls, one per polled input, oldest first. -/
def processInputs : List (Keys × α) → Anim α → Anim α
  | [], s => s
  | (k, dt) :: rest, s => processInputs rest (processInput k dt s)

/-- Consecutive passes of the render loop, oldest first. -/
def frames : List (Keys × α) → Anim α → Anim α
  | [], s => s
  | (k, dt) :: rest, s => frames rest (frame k dt s)

/-- States the render loop can be in after some number of passes, each with a
non-negative `deltaTime`. -/
inductive Reachable : Anim α → Prop
  | init : Reachable Anim.init
  | step (k : Keys) (deltaTime : α) (s : Anim α) :
      0 ≤ deltaTime → Reachable s → Reachable (frame k deltaTime s)

/-- The data-model invariant of the animation parameters. -/
def Anim.Inv (s : Anim α) : Prop :=
  0 ≤ s.waveSpeed ∧ 0 ≤ s.waveAmp ∧ 0 ≤ s.tAccum

/-! ## Pendant loop body -/

namespace main

/-- Source line `float x = (ix - (NX - 1) * 0.5f) * SPACING;`. -/
def x (ix : Int) : α := ((ix : α) - (((NX - 1 : Int) : α)) * 0.5) * SPACING

/-- Source line `float z = (iz - (NZ - 1) * 0.5f) * SPACING;`. -/
def z (iz : Int) : α := ((iz : α) - (((NZ - 1 : Int) : α)) * 0.5) * SPACING

/-- Source line `float phase = 0.35f * (ix + iz);` (the sum is taken in `int`). -/
def phase (ix iz : Int) : α := 0.35 * (((ix + iz : Int) : α))

/-- Source line `float y = 1.8f + waveAmp * std::sinf(tAccum + phase);`. -/
def y (sinf : α → α) (waveAmp tAccum : α) (ix iz : Int) : α :=
  1.8 + waveAmp * sinf (tAccum + phase ix iz)

/-- Source line `float yaw = 10.0f * std::sinf(0.6f * tAccum + 0.25f * ix);`. -/
def yaw (sinf : α → α) (tAccum : α) (ix : Int) : α :=
  10.0 * sinf (0.6 * tAccum + 0.25 * (ix : α))

/-- Source line `float tilt = 6.0f * std::sinf(0.7f * tAccum + 0.30f * iz);`. -/
def tilt (sinf : α → α) (tAccum : α) (iz : Int) : α :=
  6.0 * sinf (0.7 * tAccum + 0.30 * (iz : α))

/-- Source line `float strLen = y - 0.05f;`. -/
def strLen (y : α) : α := y - 0.05

end main

/-! ## Model matrices built from translations and scalings -/

/-- An affine map `v ↦ scale * v + offset` (componentwise): what a `glm::mat4`
is when it is built from the identity by `glm::translate` and `glm::scale`. -/
structure Model (α : Type) where
  scale : Vec3 α
  offset : Vec3 α
deriving DecidableEq, Repr

/-- The identity matrix `glm::mat4 model(1.0f)`. -/
def Model.identity : Model α := ⟨⟨1, 1, 1⟩, ⟨0, 0, 0⟩⟩

/-- The call `glm::translate(m, v)`, the product `m * T(v)`. -/
def Model.translate (m : Model α) (v : Vec3 α) : Model α :=
  { scale := m.scale,
    offset := ⟨m.offset.x + m.scale.x * v.x, m.offset.y + m.scale.y * v.y,
      m.offset.z + m.scale.z * v.z⟩ }

/-- The call `glm::scale(m, v)`, the product `m * S(v)`. -/
def Model.scaleBy (m : Model α) (v : Vec3 α) : Model α :=
  { scale := ⟨m.scale.x * v.x, m.scale.y * v.y, m.scale.z * v.z⟩, offset := m.offset }

/-- World position of the mesh point `v` under the model matrix `m`. -/
def Model.apply (m : Model α) (v : Vec3 α) : Vec3 α :=
  ⟨m.scale.x * v.x + m.offset.x, m.scale.y * v.y + m.offset.y, m.scale.z * v.z + m.offset.z⟩

/-- The base plate: `translate (0, -0.05, 0)` then
`scale (NX * SPACING * 0.9, 0.1, NZ * SPACING * 0.9)`. -/
def basePlateModel : Model α :=
  (Model.identity.translate ⟨0.0, -0.05, 0.0⟩).scaleBy
    ⟨(NX : α) * SPACING * 0.9, 0.1, (NZ : α) * SPACING * 0.9⟩

/-- The pendant without its two rotations: `translate (x, y, z)` then
`scale 0.5`. -/
def pendantModelUnrotated (x y z : α) : Model α :=
  (Model.identity.translate ⟨x, y, z⟩).scaleBy ⟨0.5, 0.5, 0.5⟩

/-- The string: `translate (x, strLen * 0.5, z)` then
`scale (0.06, strLen, 0.06)` with `strLen = y - 0.05`. -/
def stringModel (x y z : α) : Model α :=
  (Model.identity.translate ⟨x, main.strLen y * 0.5, z⟩).scaleBy ⟨0.06, main.strLen y, 0.06⟩

/-- Every coordinate of the cube mesh in `vertices` is `-0.5` or `0.5`; the
solid cube is the set of points with all three coordinates in between. -/
def cubeLo : α := -0.5

/-- Upper coordinate of the cube mesh. -/
def cubeHi : α := 0.5

/-- Height in the world of the point of the string's cube whose mesh height is
`v`, for the string drawn below a pendant at `(x, y, z)`. -/
def stringWorldY (x y z v : α) : α := ((stringModel x y z).apply ⟨cubeLo, v, cubeLo⟩).y

/-- Height in the world of the point of the unrotated pendant cube whose mesh
height is `v`. -/
def pendantWorldY (x y z v : α) : α := ((pendantModelUnrotated x y z).apply ⟨cubeLo, v, cubeLo⟩).y

/-- Height of the top face of the base plate. -/
def basePlateTop : α := ((basePlateModel : Model α).apply ⟨cubeHi, cubeHi, cubeHi⟩).y

/-- Largest world `x` of the base plate (its footprint is symmetric about 0). -/
def basePlateMaxX : α := ((basePlateModel : Model α).apply ⟨cubeHi, cubeHi, cubeHi⟩).x

/-- Largest world `z` of the base plate. -/
def basePlateMaxZ : α := ((basePlateModel : Model α).apply ⟨cubeHi, cubeHi, cubeHi⟩).z

/-! ## Lighting table -/

/-- Uniforms of one entry of `pointLights[]`. -/
structure PointLight (α : Type) where
  position : Vec3 α
  ambient : Vec3 α
  diffuse : Vec3 α
  specular : Vec3 α
  constant : α
  linear : α
  quadratic : α
deriving DecidableEq, Repr

/-- Uniforms of `spotLight`. -/
structure SpotLight (α : Type) where
  position : Vec3 α
  direction : Vec3 α
  ambient : Vec3 α
  diffuse : Vec3 α
  specular : Vec3 α
  constant : α
  linear : α
  quadratic : α
  cutOff : α
  outerCutOff : α
deriving DecidableEq, Repr

/-- The global `pointLightPositions[]`. -/
def pointLightPositions (i : Fin 4) : Vec3 α :=
  match i with
  | 0 => ⟨7.0, 7.5, 7.0⟩
  | 1 => ⟨-7.0, 7.5, 7.0⟩
  | 2 => ⟨7.0, 7.5, -7.0⟩
  | 3 => ⟨-7.0, 7.5, -7.0⟩

/-- The uniforms uploaded by iteration `i` of the point-light loop. -/
def pointLight (i : Fin 4) : PointLight α :=
  { position := pointLightPositions i,
    ambient := ⟨0.05, 0.05, 0.05⟩,
    diffuse := ⟨0.80, 0.80, 0.80⟩,
    specular := ⟨1.00, 1.00, 1.00⟩,
    constant := 1.0,
    linear := 0.09,
    quadratic := 0.032 }

/-- The call `glm::radians(deg)`: degrees to radians, with `π` supplied by the caller. -/
def radians (pi deg : α) : α := deg * (pi / 180)

/-- The spotlight uniforms uploaded each frame; `cosf` stands for `glm::cos`,
`camPos` and `camFront` for `camera.Position` and `camera.Front`. -/
def spotLight (cosf : α → α) (pi : α) (camPos camFront : Vec3 α) : SpotLight α :=
  { position := camPos,
    direction := camFront,
    ambient := ⟨0.0, 0.0, 0.0⟩,
    diffuse := ⟨1.0, 1.0, 1.0⟩,
    specular := ⟨1.0, 1.0, 1.0⟩,
    constant := 1.0,
    linear := 0.09,
    quadratic := 0.032,
    cutOff := cosf (radians pi 12.5),
    outerCutOff := cosf (radians pi 15.0) }

end Generic

/-! ## Lemmas on `processInput` and `frame` -/

section Lemmas

variable {α : Type} [LinearOrderedField α]

theorem processInput_paused (k : Keys) (dt : α) (s : Anim α) :
    (processInput k dt s).paused = (if k.p && !s.prevP then !s.paused else s.paused) := by
  unfold processInput
  cases k.r <;> rfl

theorem processInput_prevP (k : Keys) (dt : α) (s : Anim α) :
    (processInput k dt s).prevP = k.p := by
  unfold processInput
  cases k.r <;> rfl

theorem processInput_tAccum (k : Keys) (dt : α) (s : Anim α) :
    (processInput k dt s).tAccum = (if k.r then 0 else s.tAccum) := by
  unfold processInput
  cases k.r
  · simp
  · simp; norm_num

theorem processInput_waveSpeed_nonneg (k : Keys) (dt : α) (s : Anim α)
    (hdt : 0 ≤ dt) (hs : 0 ≤ s.waveSpeed) : 0 ≤ (processInput k dt s).waveSpeed := by
  have h8 : (0 : α) ≤ 0.8 * dt := mul_nonneg (by norm_num) hdt
  unfold processInput
  cases k.r <;> cases k.up <;> cases k.down <;> simp <;> first
    | exact hs
    | exact add_nonneg hs h8
    | norm_num

theorem processInput_waveAmp_nonneg (k : Keys) (dt : α) (s : Anim α)
    (hdt : 0 ≤ dt) (hs : 0 ≤ s.waveAmp) : 0 ≤ (processInput k dt s).waveAmp := by
  have h8 : (0 : α) ≤ 0.8 * dt := mul_nonneg (by norm_num) hdt
  unfold processInput
  cases k.r <;> cases k.right <;> cases k.left <;> simp <;> first
    | exact hs
    | exact add_nonneg hs h8
    | norm_num

theorem processInput_reset (k : Keys) (dt : α) (s : Anim α) (hr : k.r = true) :
    (processInput k dt s).waveAmp = 0.9 ∧
    (processInput k dt s).waveSpeed = 1.6 ∧
    (processInput k dt s).tAccum = 0.0 := by
  unfold processInput
  simp [hr]

theorem frame_paused (k : Keys) (dt : α) (s : Anim α) :
    (frame k dt s).paused = (processInput k dt s).paused := by
  unfold frame
  dsimp only
  split <;> rfl

theorem frame_waveSpeed (k : Keys) (dt : α) (s : Anim α) :
    (frame k dt s).waveSpeed = (processInput k dt s).waveSpeed := by
  unfold frame
  dsimp only
  split <;> rfl

theorem frame_waveAmp (k : Keys) (dt : α) (s : Anim α) :
    (frame k dt s).waveAmp = (processInput k dt s).waveAmp := by
  unfold frame
  dsimp only
  split <;> rfl

theorem frame_tAccum (k : Keys) (dt : α) (s : Anim α) :
    (frame k dt s).tAccum =
      (if (processInput k dt s).paused then (processInput k dt s).tAccum
       else (processInput k dt s).tAccum + dt * (processInput k dt s).waveSpeed) := by
  unfold frame
  dsimp only
  cases (processInput k dt s).paused <;> rfl

theorem frame_inv (k : Keys) (dt : α) (s : Anim α) (hdt : 0 ≤ dt) (hs : s.Inv) :
    (frame k dt s).Inv := by
  obtain ⟨h1, h2, h3⟩ := hs
  have hv := processInput_waveSpeed_nonneg k dt s hdt h1
  have ha := processInput_waveAmp_nonneg k dt s hdt h2
  have ht : 0 ≤ (processInput k dt s).tAccum := by
    rw [processInput_tAccum]
    cases k.r <;> simp [h3]
  refine ⟨?_, ?_, ?_⟩
  · rw [frame_waveSpeed]; exact hv
  · rw [frame_waveAmp]; exact ha
  · rw [frame_tAccum]
    cases (processInput k dt s).paused
    · simpa using add_nonneg ht (mul_nonneg hdt hv)
    · simpa using ht

theorem init_inv : (Anim.init : Anim α).Inv := by
  refine ⟨?_, ?_, ?_⟩ <;> simp [Anim.init] <;> norm_num

theorem frames_inv (ins : List (Keys × α)) (s : Anim α)
    (hdt : ∀ i ∈ ins, 0 ≤ i.2) (hs : s.Inv) : (frames ins s).Inv := by
  induction ins generalizing s with
  | nil => exact hs
  | cons i rest ih =>
    obtain ⟨k, dt⟩ := i
    have h0 : 0 ≤ dt := hdt (k, dt) (List.mem_cons_self _ _)
    exact ih (frame k dt s) (fun j hj => hdt j (List.mem_cons_of_mem _ hj))
      (frame_inv k dt s h0 hs)

/-- While P stays held and was already seen held, `paused` does not move. -/
theorem processInputs_held (ins : List (Keys × α)) (s : Anim α)
    (hprev : s.prevP = true) (hheld : ∀ i ∈ ins, i.1.p = true) :
    (processInputs ins s).paused = s.paused := by
  induction ins generalizing s with
  | nil => rfl
  | cons i rest ih =>
    obtain ⟨k, dt⟩ := i
    have hk : k.p = true := hheld (k, dt) (List.mem_cons_self _ _)
    have h1 : (processInput k dt s).prevP = true := by rw [processInput_prevP]; exact hk
    have h2 : (processInput k dt s).paused = s.paused := by
      rw [processInput_paused]; simp [hprev]
    show (processInputs rest (processInput k dt s)).paused = s.paused
    rw [ih (processInput k dt s) h1 (fun j hj => hheld j (List.mem_cons_of_mem _ hj)), h2]

/-- From a released P, any non-empty run of polls with P held flips `paused`
once. -/
theorem processInputs_rising (ins : List (Keys × α)) (s : Anim α)
    (hprev : s.prevP = false) (hheld : ∀ i ∈ ins, i.1.p = true) (hne : ins ≠ []) :
    (processInputs ins s).paused = !s.paused := by
  cases ins with
  | nil => exact absurd rfl hne
  | cons i rest =>
    obtain ⟨k, dt⟩ := i
    have hk : k.p = true := hheld (k, dt) (List.mem_cons_self _ _)
    have h1 : (processInput k dt s).prevP = true := by rw [processInput_prevP]; exact hk
    have h2 : (processInput k dt s).paused = !s.paused := by
      rw [processInput_paused]; simp [hprev, hk]
    show (processInputs rest (processInput k dt s)).paused = !s.paused
    rw [processInputs_held rest (processInput k dt s) h1
      (fun j hj => hheld j (List.mem_cons_of_mem _ hj)), h2]

end Lemmas

/-! ## Claims -/

section Claims

variable {α : Type} [LinearOrderedField α]

/-- C3: a call of `processInput` in which R is pressed returns with
`waveAmp = 0.9`, `waveSpeed = 1.6` and `tAccum = 0.0`, whatever the prior
state, the frame time and the other held keys are. -/
theorem reset_unconditional (k : Keys) (deltaTime : α) (s : Anim α) (hr : k.r = true) :
    (processInput k deltaTime s).waveAmp = 0.9 ∧
    (processInput k deltaTime s).waveSpeed = 1.6 ∧
    (processInput k deltaTime s).tAccum = 0.0 := by
  unfold processInput
  simp [hr]

/-- Witness for C3: every key held, from a paused state far from the
defaults. -/
theorem reset_unconditional_witness :
    (⟨true, true, true, true, true, true⟩ : Keys).r = true ∧
    (processInput ⟨true, true, true, true, true, true⟩ (1 / 60 : ℚ)
      ⟨true, 3, 5, 50, true⟩).waveAmp = 0.9 ∧
    (processInput ⟨true, true, true, true, true, true⟩ (1 / 60 : ℚ)
      ⟨true, 3, 5, 50, true⟩).waveSpeed = 1.6 ∧
    (processInput ⟨true, true, true, true, true, true⟩ (1 / 60 : ℚ)
      ⟨true, 3, 5, 50, true⟩).tAccum = 0.0 :=
  ⟨rfl, reset_unconditional ⟨true, true, true, true, true, true⟩ (1 / 60 : ℚ)
    ⟨true, 3, 5, 50, true⟩ rfl⟩

/-- C4: the pause toggle is edge-triggered.  From a state with `prevP = false`,
a run of `N ≥ 1` consecutive `processInput` calls with P held in all of them
leaves `paused` equal to the negation of its starting value, and `paused` has
that same value after each of the calls `1..N`. -/
theorem pause_toggle_edge_triggered (ins : List (Keys × α)) (s : Anim α)
    (hprev : s.prevP = false) (hheld : ∀ i ∈ ins, i.1.p = true) (hN : 1 ≤ ins.length) :
    (processInputs ins s).paused = (!s.paused) ∧
    ∀ n, 1 ≤ n → n ≤ ins.length →
      (processInputs (ins.take n) s).paused = (processInputs ins s).paused := by
  have hne : ins ≠ [] := by
    intro h
    rw [h] at hN
    simp at hN
  have hall := processInputs_rising ins s hprev hheld hne
  refine ⟨hall, ?_⟩
  intro n h1 hn
  have hne2 : ins.take n ≠ [] := by
    intro h
    have hl : (ins.take n).length = n := by
      rw [List.length_take]; exact Nat.min_eq_left hn
    rw [h] at hl
    simp at hl
    omega
  rw [hall]
  exact processInputs_rising (ins.take n) s hprev
    (fun j hj => hheld j (List.mem_of_mem_take hj)) hne2

/-- Witness for C4: P held for three polls (with other keys coming and going)
from the running initial state. -/
theorem pause_toggle_edge_triggered_witness :
    (Anim.init : Anim ℚ).prevP = false ∧
    (processInputs [(⟨true, false, false, false, false, false⟩, (1 / 60 : ℚ)),
        (⟨true, true, false, false, true, false⟩, 1 / 30),
        (⟨true, false, false, false, false, true⟩, 1 / 60)] Anim.init).paused = true :=
  ⟨rfl, by
    simpa [Anim.init] using
      (pause_toggle_edge_triggered
        [(⟨true, false, false, false, false, false⟩, (1 / 60 : ℚ)),
          (⟨true, true, false, false, true, false⟩, 1 / 30),
          (⟨true, false, false, false, false, true⟩, 1 / 60)] Anim.init rfl
        (by simp) (by simp)).1⟩

/-- C5: the invariant `waveSpeed ≥ 0 ∧ waveAmp ≥ 0 ∧ tAccum ≥ 0` holds for the
initial values, is preserved by every frame with `deltaTime ≥ 0` under every
combination of held keys, and therefore holds in every reachable state and
after any run of frames (in particular any number of Down / Left frames). -/
theorem anim_invariant :
    (Anim.init : Anim α).Inv ∧
    (∀ (k : Keys) (deltaTime : α) (s : Anim α),
      0 ≤ deltaTime → s.Inv → (frame k deltaTime s).Inv) ∧
    (∀ s : Anim α, Reachable s → s.Inv) ∧
    (∀ (ins : List (Keys × α)) (s : Anim α),
      (∀ i ∈ ins, 0 ≤ i.2) → s.Inv → (frames ins s).Inv) := by
  refine ⟨init_inv, frame_inv, ?_, frames_inv⟩
  intro s hs
  induction hs with
  | init => exact init_inv
  | step k dt s hdt _ ih => exact frame_inv k dt s hdt ih

/-- Witness for C5: forty Down+Left frames of one second each from the initial
state. -/
theorem anim_invariant_witness :
    (frames (List.replicate 40 (⟨false, false, true, false, true, false⟩, (1 : ℚ)))
      Anim.init).Inv :=
  (@anim_invariant ℚ _).2.2.2 _ _
    (fun i hi => by rw [List.eq_of_mem_replicate hi]; norm_num)
    (@anim_invariant ℚ _).1

/-- C1: over the reals, for every amplitude `waveAmp ≥ 0`, every accumulated
time `tAccum ≥ 0` and every grid cell `0 ≤ ix < 14`, `0 ≤ iz < 14`, the pendant
height `y` satisfies `1.8 - waveAmp ≤ y ≤ 1.8 + waveAmp`. -/
theorem pendant_height_bounds (waveAmp tAccum : ℝ) (ix iz : Int)
    (hA : 0 ≤ waveAmp) (_ht : 0 ≤ tAccum)
    (_hix0 : 0 ≤ ix) (_hix : ix < NX) (_hiz0 : 0 ≤ iz) (_hiz : iz < NZ) :
    1.8 - waveAmp ≤ main.y Real.sin waveAmp tAccum ix iz ∧
    main.y Real.sin waveAmp tAccum ix iz ≤ 1.8 + waveAmp := by
  have hlo := Real.neg_one_le_sin (tAccum + main.phase ix iz)
  have hhi := Real.sin_le_one (tAccum + main.phase ix iz)
  unfold main.y
  constructor <;> nlinarith

/-- Witness for C1: default amplitude, two seconds of accumulated time, cell
(3, 5). -/
theorem pendant_height_bounds_witness :
    (0 : ℝ) ≤ 0.9 ∧ (0 : ℝ) ≤ 2 ∧ (0 : Int) ≤ 3 ∧ (3 : Int) < NX ∧ (0 : Int) ≤ 5 ∧
    (5 : Int) < NZ ∧
    1.8 - 0.9 ≤ main.y Real.sin 0.9 2 3 5 ∧ main.y Real.sin 0.9 2 3 5 ≤ 1.8 + 0.9 :=
  ⟨by norm_num, by norm_num, by decide, by decide, by decide, by decide,
    pendant_height_bounds 0.9 2 3 5 (by norm_num) (by norm_num) (by decide) (by decide)
      (by decide) (by decide)⟩

/-- C2, as stated, fails: in a paused state a frame with R held resets the
accumulated time (and with it the height of cell (0,0)), and a frame with Right
held raises the amplitude and with it the height, while `paused` stays true. -/
theorem pause_freeze_counterexample :
    (⟨true, 1.6, 0.9, Real.pi / 2, false⟩ : Anim ℝ).paused = true ∧
    (0 : ℝ) ≤ 1 ∧
    (frame ⟨false, false, false, false, false, true⟩ (1 : ℝ)
      ⟨true, 1.6, 0.9, Real.pi / 2, false⟩).paused = true ∧
    (frame ⟨false, false, false, false, false, true⟩ (1 : ℝ)
      ⟨true, 1.6, 0.9, Real.pi / 2, false⟩).tAccum
      ≠ (⟨true, 1.6, 0.9, Real.pi / 2, false⟩ : Anim ℝ).tAccum ∧
    (frame ⟨false, false, false, true, false, false⟩ (1 : ℝ)
      ⟨true, 1.6, 0.9, Real.pi / 2, false⟩).paused = true ∧
    main.y Real.sin
      (frame ⟨false, false, false, true, false, false⟩ (1 : ℝ)
        ⟨true, 1.6, 0.9, Real.pi / 2, false⟩).waveAmp
      (frame ⟨false, false, false, true, false, false⟩ (1 : ℝ)
        ⟨true, 1.6, 0.9, Real.pi / 2, false⟩).tAccum 0 0
      ≠ main.y Real.sin 0.9 (Real.pi / 2) 0 0 := by
  have hpi : (0 : ℝ) ≠ Real.pi / 2 := by
    have := Real.pi_pos
    intro h
    linarith
  refine ⟨rfl, by norm_num, ?_, ?_, ?_, ?_⟩
  · simp [frame, processInput]
  · simp [frame, processInput]
    intro h
    exact hpi (by linarith)
  · simp [frame, processInput]
  · simp [frame, processInput, main.y, main.phase]
    norm_num

/-- C2, amended: for every paused state and every frame in which R is not held
and after which `paused` is still true (any `deltaTime ≥ 0`, any other keys),
`tAccum` is unchanged and the yaw and tilt of every cell are identical to those
before the frame; the amplitude is unchanged when neither Right nor Left is
held, and whenever the amplitude is unchanged the height of every cell is
identical too. -/
theorem pause_freezes_time (sinf : α → α) (k : Keys) (deltaTime : α) (s : Anim α)
    (_hp : s.paused = true) (_hdt : 0 ≤ deltaTime)
    (hp2 : (frame k deltaTime s).paused = true) (hr : k.r = false) :
    (frame k deltaTime s).tAccum = s.tAccum ∧
    (∀ ix : Int, main.yaw sinf (frame k deltaTime s).tAccum ix = main.yaw sinf s.tAccum ix) ∧
    (∀ iz : Int, main.tilt sinf (frame k deltaTime s).tAccum iz = main.tilt sinf s.tAccum iz) ∧
    (k.right = false → k.left = false → (frame k deltaTime s).waveAmp = s.waveAmp) ∧
    ((frame k deltaTime s).waveAmp = s.waveAmp → ∀ ix iz : Int,
      main.y sinf (frame k deltaTime s).waveAmp (frame k deltaTime s).tAccum ix iz
        = main.y sinf s.waveAmp s.tAccum ix iz) := by
  have hp3 : (processInput k deltaTime s).paused = true := by
    rw [← frame_paused]; exact hp2
  have ht : (frame k deltaTime s).tAccum = s.tAccum := by
    rw [frame_tAccum, hp3, processInput_tAccum, hr]
    simp
  refine ⟨ht, ?_, ?_, ?_, ?_⟩
  · intro ix; rw [ht]
  · intro iz; rw [ht]
  · intro hright hleft
    rw [frame_waveAmp]
    unfold processInput
    simp [hr, hright, hleft]
  · intro ha ix iz
    rw [ht, ha]

/-- Witness for C2 (amended): a paused state with seven units of accumulated
time, Up and Down held for a sixtieth of a second. -/
theorem pause_freezes_time_witness :
    (⟨true, 1.6, 0.9, 7, false⟩ : Anim ℝ).paused = true ∧
    (0 : ℝ) ≤ 1 / 60 ∧
    (frame ⟨false, true, true, false, false, false⟩ (1 / 60 : ℝ)
      ⟨true, 1.6, 0.9, 7, false⟩).paused = true ∧
    (⟨false, true, true, false, false, false⟩ : Keys).r = false ∧
    (frame ⟨false, true, true, false, false, false⟩ (1 / 60 : ℝ)
      ⟨true, 1.6, 0.9, 7, false⟩).tAccum = 7 ∧
    main.y Real.sin
      (frame ⟨false, true, true, false, false, false⟩ (1 / 60 : ℝ)
        ⟨true, 1.6, 0.9, 7, false⟩).waveAmp
      (frame ⟨false, true, true, false, false, false⟩ (1 / 60 : ℝ)
        ⟨true, 1.6, 0.9, 7, false⟩).tAccum 3 5
      = main.y Real.sin 0.9 7 3 5 :=
  ⟨rfl, by norm_num, by simp [frame, processInput], rfl,
    (pause_freezes_time Real.sin ⟨false, true, true, false, false, false⟩ (1 / 60 : ℝ)
      ⟨true, 1.6, 0.9, 7, false⟩ rfl (by norm_num) (by simp [frame, processInput]) rfl).1,
    (pause_freezes_time Real.sin ⟨false, true, true, false, false, false⟩ (1 / 60 : ℝ)
      ⟨true, 1.6, 0.9, 7, false⟩ rfl (by norm_num) (by simp [frame, processInput]) rfl).2.2.2.2
      ((pause_freezes_time Real.sin ⟨false, true, true, false, false, false⟩ (1 / 60 : ℝ)
        ⟨true, 1.6, 0.9, 7, false⟩ rfl (by norm_num) (by simp [frame, processInput])
        rfl).2.2.2.1 rfl rfl) 3 5⟩

/-- C6: in a running state, a frame with no key held advances the accumulated
time by exactly `deltaTime * waveSpeed`, and the height then computed for cell
`(ix, iz)` is `1.8 + waveAmp * sin (tAccum + deltaTime * waveSpeed + 0.35 * (ix + iz))`
over the reals.  With `waveAmp = 0.9` and `tAccum = 0` the height of cell (0,0)
is 1.8; from `tAccum = 0` with speed 1, amplitude 0.9 and
`deltaTime * waveSpeed = π / 2` the height of cell (0,0) after the frame is
2.7. -/
theorem running_frame_advances (deltaTime : ℝ) (s : Anim ℝ) (hrun : s.paused = false) :
    (frame Keys.none deltaTime s).tAccum = s.tAccum + deltaTime * s.waveSpeed ∧
    (∀ ix iz : Int,
      main.y Real.sin (frame Keys.none deltaTime s).waveAmp
          (frame Keys.none deltaTime s).tAccum ix iz
        = 1.8 + s.waveAmp *
            Real.sin (s.tAccum + deltaTime * s.waveSpeed + 0.35 * ((ix : ℝ) + (iz : ℝ)))) ∧
    main.y Real.sin 0.9 0 0 0 = 1.8 ∧
    (s.tAccum = 0 → s.waveSpeed = 1 → s.waveAmp = 0.9 →
      deltaTime * s.waveSpeed = Real.pi / 2 →
      main.y Real.sin (frame Keys.none deltaTime s).waveAmp
        (frame Keys.none deltaTime s).tAccum 0 0 = 2.7) := by
  have ht : (frame Keys.none deltaTime s).tAccum = s.tAccum + deltaTime * s.waveSpeed := by
    simp [frame, processInput, Keys.none, hrun]
  have ha : (frame Keys.none deltaTime s).waveAmp = s.waveAmp := by
    simp [frame, processInput, Keys.none, hrun]
  refine ⟨ht, ?_, ?_, ?_⟩
  · intro ix iz
    rw [ht, ha]
    simp [main.y, main.phase]
  · simp [main.y, main.phase]
  · intro h0 _ hamp hphase
    rw [ht, ha, h0, hamp, hphase]
    simp [main.y, main.phase]
    norm_num

/-- Witness for C6: the running initial-like state with speed 1 and a frame of
`π / 2` seconds. -/
theorem running_frame_advances_witness :
    (⟨false, 1, 0.9, 0, false⟩ : Anim ℝ).paused = false ∧
    main.y Real.sin (frame Keys.none (Real.pi / 2) (⟨false, 1, 0.9, 0, false⟩ : Anim ℝ)).waveAmp
      (frame Keys.none (Real.pi / 2) (⟨false, 1, 0.9, 0, false⟩ : Anim ℝ)).tAccum 0 0 = 2.7 :=
  ⟨rfl, (running_frame_advances (Real.pi / 2) ⟨false, 1, 0.9, 0, false⟩ rfl).2.2.2
    rfl rfl rfl (by simp)⟩

/-- C7, as stated, fails: from the running state with accumulated time 50, a
frame of a sixtieth of a second with R held ends with accumulated time
`1.6 / 60`, not `0.0`. -/
theorem reset_frame_counterexample :
    (⟨false, false, false, false, false, true⟩ : Keys).r = true ∧
    (frame ⟨false, false, false, false, false, true⟩ (1 / 60 : ℚ)
      ⟨false, 1.6, 0.9, 50, false⟩).tAccum = 1.6 / 60 ∧
    (frame ⟨false, false, false, false, false, true⟩ (1 / 60 : ℚ)
      ⟨false, 1.6, 0.9, 50, false⟩).tAccum ≠ 0.0 := by
  refine ⟨rfl, ?_, ?_⟩ <;> simp [frame, processInput] <;> norm_num

/-- C7, amended: for every prior state and every frame in which R is held, the
state after `processInput` and the accumulated-time advance of that frame has
amplitude 0.9 and speed 1.6, and its accumulated time is 0.0 when the frame
ends paused and `deltaTime * 1.6` when it ends running. -/
theorem reset_frame (k : Keys) (deltaTime : α) (s : Anim α) (hr : k.r = true) :
    (frame k deltaTime s).waveAmp = 0.9 ∧
    (frame k deltaTime s).waveSpeed = 1.6 ∧
    (frame k deltaTime s).tAccum =
      (if (frame k deltaTime s).paused then 0.0 else deltaTime * 1.6) := by
  obtain ⟨h1, h2, h3⟩ := processInput_reset k deltaTime s hr
  refine ⟨?_, ?_, ?_⟩
  · rw [frame_waveAmp]; exact h1
  · rw [frame_waveSpeed]; exact h2
  · rw [frame_tAccum, frame_paused, h2, h3]
    cases (processInput k deltaTime s).paused
    · simp; norm_num
    · simp

/-- Witness for C7 (amended): the running state with accumulated time 50, R
held for a sixtieth of a second. -/
theorem reset_frame_witness :
    (⟨false, false, false, false, false, true⟩ : Keys).r = true ∧
    (frame ⟨false, false, false, false, false, true⟩ (1 / 60 : ℚ)
      ⟨false, 1.6, 0.9, 50, false⟩).waveAmp = 0.9 ∧
    (frame ⟨false, false, false, false, false, true⟩ (1 / 60 : ℚ)
      ⟨false, 1.6, 0.9, 50, false⟩).waveSpeed = 1.6 :=
  ⟨rfl, (reset_frame ⟨false, false, false, false, false, true⟩ (1 / 60 : ℚ)
      ⟨false, 1.6, 0.9, 50, false⟩ rfl).1,
    (reset_frame ⟨false, false, false, false, false, true⟩ (1 / 60 : ℚ)
      ⟨false, 1.6, 0.9, 50, false⟩ rfl).2.1⟩

/-- C8: the attenuation constant term of each of the four point lights and of
the spotlight is 1.0, hence strictly positive, and over the reals the
spotlight's uploaded outer cutoff `cos (15°)` is at most its uploaded inner
cutoff `cos (12.5°)`. -/
theorem lighting_invariant (camPos camFront : Vec3 ℝ) :
    (∀ i : Fin 4, (pointLight i : PointLight ℝ).constant = 1.0 ∧
      0 < (pointLight i : PointLight ℝ).constant) ∧
    (spotLight Real.cos Real.pi camPos camFront).constant = 1.0 ∧
    0 < (spotLight Real.cos Real.pi camPos camFront).constant ∧
    (spotLight Real.cos Real.pi camPos camFront).cutOff = Real.cos (12.5 * (Real.pi / 180)) ∧
    (spotLight Real.cos Real.pi camPos camFront).outerCutOff
      = Real.cos (15.0 * (Real.pi / 180)) ∧
    (spotLight Real.cos Real.pi camPos camFront).outerCutOff
      ≤ (spotLight Real.cos Real.pi camPos camFront).cutOff := by
  have hpi := Real.pi_pos
  refine ⟨?_, rfl, ?_, rfl, rfl, ?_⟩
  · intro i
    constructor
    · rfl
    · show (0 : ℝ) < 1.0
      norm_num
  · show (0 : ℝ) < 1.0
    norm_num
  · show Real.cos (radians Real.pi 15.0) ≤ Real.cos (radians Real.pi 12.5)
    unfold radians
    apply Real.cos_le_cos_of_nonneg_of_le_pi
    · positivity
    · nlinarith
    · nlinarith

/-- C9: for every amplitude `0 ≤ waveAmp < 1.75`, every accumulated time and
every grid cell, with `y` the pendant height, the string has strictly positive
length `y - 0.05`, its cube occupies exactly the vertical interval
`[0, y - 0.05]`, the lower end `0` is the top face of the base plate, and the
upper end lies inside the unrotated pendant cube's vertical extent
`[y - 0.25, y + 0.25]`. -/
theorem string_spans_plate_to_pendant (waveAmp tAccum : ℝ) (ix iz : Int)
    (hA0 : 0 ≤ waveAmp) (hA1 : waveAmp < 1.75)
    (_hix0 : 0 ≤ ix) (_hix : ix < NX) (_hiz0 : 0 ≤ iz) (_hiz : iz < NZ) :
    0 < main.strLen (main.y Real.sin waveAmp tAccum ix iz) ∧
    Set.image
        (stringWorldY (main.x ix) (main.y Real.sin waveAmp tAccum ix iz) (main.z iz))
        (Set.Icc cubeLo cubeHi)
      = Set.Icc 0 (main.y Real.sin waveAmp tAccum ix iz - 0.05) ∧
    (basePlateTop : ℝ) = 0 ∧
    pendantWorldY (main.x ix) (main.y Real.sin waveAmp tAccum ix iz) (main.z iz) cubeLo
      = main.y Real.sin waveAmp tAccum ix iz - 0.25 ∧
    pendantWorldY (main.x ix) (main.y Real.sin waveAmp tAccum ix iz) (main.z iz) cubeHi
      = main.y Real.sin waveAmp tAccum ix iz + 0.25 ∧
    main.y Real.sin waveAmp tAccum ix iz - 0.25
      ≤ main.y Real.sin waveAmp tAccum ix iz - 0.05 ∧
    main.y Real.sin waveAmp tAccum ix iz - 0.05
      ≤ main.y Real.sin waveAmp tAccum ix iz + 0.25 := by
  have hlo := Real.neg_one_le_sin (tAccum + main.phase ix iz)
  have hhi := Real.sin_le_one (tAccum + main.phase ix iz)
  have hy : (0.05 : ℝ) < main.y Real.sin waveAmp tAccum ix iz := by
    unfold main.y
    nlinarith
  generalize main.y Real.sin waveAmp tAccum ix iz = y at hy ⊢
  have hmap : ∀ v : ℝ, stringWorldY (main.x ix) y (main.z iz) v
      = (y - 0.05) * v + (y - 0.05) * 0.5 := by
    intro v
    simp [stringWorldY, stringModel, Model.apply, Model.scaleBy, Model.translate,
      Model.identity, main.strLen]
  have hpos : (0 : ℝ) < y - 0.05 := by linarith
  refine ⟨by unfold main.strLen; exact hpos, ?_, ?_, ?_, ?_,
    by norm_num; linarith, by norm_num; linarith⟩
  · ext w
    simp only [Set.mem_image, Set.mem_Icc, cubeLo, cubeHi]
    constructor
    · rintro ⟨v, ⟨hv1, hv2⟩, rfl⟩
      rw [hmap]
      constructor <;> nlinarith
    · rintro ⟨hw1, hw2⟩
      refine ⟨w / (y - 0.05) - 0.5, ⟨?_, ?_⟩, ?_⟩
      · have : 0 ≤ w / (y - 0.05) := div_nonneg hw1 hpos.le
        linarith
      · have : w / (y - 0.05) ≤ 1 := (div_le_one hpos).mpr hw2
        linarith
      · rw [hmap]
        field_simp
  · simp [basePlateTop, basePlateModel, Model.apply, Model.scaleBy, Model.translate,
      Model.identity, cubeHi]
    norm_num
  · simp [pendantWorldY, pendantModelUnrotated, Model.apply, Model.scaleBy, Model.translate,
      Model.identity, cubeLo]
    norm_num
    ring
  · simp [pendantWorldY, pendantModelUnrotated, Model.apply, Model.scaleBy, Model.translate,
      Model.identity, cubeHi]
    norm_num
    ring

/-- Witness for C9: default amplitude, two seconds of accumulated time, cell
(3, 5). -/
theorem string_spans_plate_to_pendant_witness :
    (0 : ℝ) ≤ 0.9 ∧ (0.9 : ℝ) < 1.75 ∧ (0 : Int) ≤ 3 ∧ (3 : Int) < NX ∧ (0 : Int) ≤ 5 ∧
    (5 : Int) < NZ ∧
    0 < main.strLen (main.y Real.sin 0.9 2 3 5) :=
  ⟨by norm_num, by norm_num, by decide, by decide, by decide, by decide,
    (string_spans_plate_to_pendant 0.9 2 3 5 (by norm_num) (by norm_num) (by decide)
      (by decide) (by decide) (by decide)).1⟩

/-- C10 evaluated on the outer ring of the grid: the base plate reaches to
`|x| = 8.19` and `|z| = 8.19`, while the pendants and strings of the cells with
`ix = 0` or `ix = 13` stand at `|x| = 8.45` and those with `iz = 0` or
`iz = 13` at `|z| = 8.45`, outside the plate's footprint; the cells next to
them (index 1 and 12) stand at 7.15, inside, and a grid index lies within the
footprint exactly when it is between 1 and 12. -/
theorem outer_ring_off_base_plate :
    (basePlateMaxX : ℚ) = (NX : ℚ) * SPACING * 0.9 / 2 ∧
    (basePlateMaxX : ℚ) = 8.19 ∧ (basePlateMaxZ : ℚ) = 8.19 ∧
    (main.x 0 : ℚ) = -8.45 ∧ (main.x 13 : ℚ) = 8.45 ∧
    (main.z 0 : ℚ) = -8.45 ∧ (main.z 13 : ℚ) = 8.45 ∧
    ¬ (|(main.x 0 : ℚ)| ≤ (NX : ℚ) * SPACING * 0.9 / 2) ∧
    ¬ (|(main.x 13 : ℚ)| ≤ (NX : ℚ) * SPACING * 0.9 / 2) ∧
    ¬ (|(main.z 0 : ℚ)| ≤ (NZ : ℚ) * SPACING * 0.9 / 2) ∧
    ¬ (|(main.z 13 : ℚ)| ≤ (NZ : ℚ) * SPACING * 0.9 / 2) ∧
    |(main.x 1 : ℚ)| = 7.15 ∧ |(main.x 12 : ℚ)| = 7.15 ∧
    (∀ i : Fin 14, |(main.x (i.val : Int) : ℚ)| ≤ basePlateMaxX ↔ 1 ≤ i.val ∧ i.val ≤ 12) ∧
    (∀ i : Fin 14, |(main.z (i.val : Int) : ℚ)| ≤ basePlateMaxZ ↔ 1 ≤ i.val ∧ i.val ≤ 12) := by
  have hx0 : (main.x 0 : ℚ) = -8.45 := by norm_num [main.x, NX, SPACING]
  have hx13 : (main.x 13 : ℚ) = 8.45 := by norm_num [main.x, NX, SPACING]
  have hz0 : (main.z 0 : ℚ) = -8.45 := by norm_num [main.z, NZ, SPACING]
  have hz13 : (main.z 13 : ℚ) = 8.45 := by norm_num [main.z, NZ, SPACING]
  have hx1 : (main.x 1 : ℚ) = -7.15 := by norm_num [main.x, NX, SPACING]
  have hx12 : (main.x 12 : ℚ) = 7.15 := by norm_num [main.x, NX, SPACING]
  have hmx : (basePlateMaxX : ℚ) = 8.19 := by
    norm_num [basePlateMaxX, basePlateModel, Model.apply, Model.scaleBy, Model.translate,
      Model.identity, cubeHi, NX, SPACING]
  have hmz : (basePlateMaxZ : ℚ) = 8.19 := by
    norm_num [basePlateMaxZ, basePlateModel, Model.apply, Model.scaleBy, Model.translate,
      Model.identity, cubeHi, NZ, SPACING]
  refine ⟨?_, hmx, hmz, hx0, hx13, hz0, hz13, ?_, ?_, ?_, ?_, ?_, ?_, ?_, ?_⟩
  · rw [hmx]; norm_num [NX, SPACING]
  · rw [hx0]; norm_num [NX, SPACING, abs_of_nonneg]
  · rw [hx13]; norm_num [NX, SPACING, abs_of_nonneg]
  · rw [hz0]; norm_num [NZ, SPACING, abs_of_nonneg]
  · rw [hz13]; norm_num [NZ, SPACING, abs_of_nonneg]
  · rw [hx1]; norm_num [abs_of_nonneg]
  · rw [hx12]; norm_num [abs_of_nonneg]
  · intro i
    rw [hmx]
    fin_cases i <;> norm_num [main.x, NX, SPACING, abs_le]
  · intro i
    rw [hmz]
    fin_cases i <;> norm_num [main.z, NZ, SPACING, abs_le]

end Claims

end KineticSculpture
